import Mathlib

/-!
# Verification of the slideshow navigation controller

Shallow embedding of the navigation/playback core of `src/slide_show.py`
(class `SlideShow`).  Image identifiers are modelled as natural numbers
(paths compare lexicographically; only their order matters).  The Tk event
loop is modelled explicitly: `root.after` allocates a fresh handle into a
set of live timers, `root.after_cancel` removes it, and a `Step` relation
describes the events the loop can deliver (key handlers, button commands,
timer ticks).  `random.randint(0, n-1)` is modelled by an arbitrary stream
of naturals reduced into range; the reject-and-retry loop of `next_image`
gets explicit fuel, with `none` standing for divergence of that loop.
-/

/-- The per-session mutable fields of class `SlideShow` that the navigation,
history, debounce and auto-advance logic touches.  `display_log` records the
identifiers handed to `display_image`, in order.  `rand_k` is the number of
values consumed from the random stream.  `navigation_locked` is cleared by a
300 ms one-shot timer; with a monotone event clock that is the same as being
locked until `lock_until`, the clear time recorded at acquisition. -/
structure State where
  image_files : List ℕ
  current_index : ℕ
  is_random_mode : Bool
  random_sequence : List ℕ
  random_sequence_position : ℤ
  rand_k : ℕ
  display_log : List ℕ
  slideshow_running : Bool
  pending_timer : Option ℕ
  live_timers : List ℕ
  next_handle : ℕ
  last_key_right : Option ℕ
  last_key_left : Option ℕ
  lock_until : Option ℕ
  display_duration : ℚ

/-- `random.randint(0, n - 1)`: the next stream value, reduced into range. -/
def randint (rnd : ℕ → ℕ) (k n : ℕ) : ℕ := rnd k % n

/-- Lines 701-704: one draw, then reject-and-retry while the draw equals
`cur` and the catalog has more than one entry.  Returns the accepted value
and the new stream position; `none` models divergence of the `while`. -/
def draw_new_index (rnd : ℕ → ℕ) (cur n : ℕ) : ℕ → ℕ → Option (ℕ × ℕ)
  | _, 0 => none
  | k, fuel + 1 =>
    let v := randint rnd k n
    if v = cur ∧ 1 < n then draw_new_index rnd cur n (k + 1) fuel
    else some (v, k + 1)

/-- `seq = seq[-15:] if len(seq) > 15 else seq` (lines 710-714 / 740-744):
keep only the most recent 15 history entries. -/
def trim15 (l : List ℕ) : List ℕ :=
  if 15 < l.length then l.drop (l.length - 15) else l

/-- Lines 602-633: render an image on the canvas; modelled as appending the
displayed identifier to a log (scaling and status text are external). -/
def display_image (s : State) (p : ℕ) : State :=
  { s with display_log := s.display_log ++ [p] }

/-- `self.root.after(duration, callback)`: schedule a one-shot callback and
return its fresh handle. -/
def root_after (s : State) : State × ℕ :=
  ({ s with live_timers := s.live_timers ++ [s.next_handle],
            next_handle := s.next_handle + 1 },
   s.next_handle)

/-- `self.root.after_cancel(h)`: cancelling an absent or already-fired
handle is a no-op. -/
def root_after_cancel (h : ℕ) (s : State) : State :=
  { s with live_timers := s.live_timers.erase h }

/-- Lines 695-698 of `next_image`: when at the end of the history, append the
current index unless it already is the tail, and point the position at it. -/
def tail_append (s : State) : State :=
  if s.random_sequence = [] ∨ s.random_sequence.getLast? ≠ some s.current_index then
    { s with random_sequence := s.random_sequence ++ [s.current_index],
             random_sequence_position :=
               ((s.random_sequence ++ [s.current_index]).length : ℤ) - 1 }
  else s

/-- Lines 723-728 of `next_image`: display the new current image, then, if
auto-advance is on, schedule the next tick and store its handle. -/
def finish_next (s : State) : State :=
  let s := display_image s (s.image_files.getD s.current_index 0)
  if s.slideshow_running then
    let t := root_after s
    { t.1 with pending_timer := some t.2 }
  else s

/-- Lines 683-728: advance forward.  Sequential: `(i + 1) mod N` and the
history is cleared.  Random: replay the next history entry when strictly
before the tail, otherwise append the current index if needed, draw a fresh
index (rejecting immediate repeats while `N > 1`), append it and trim the
history to 15 entries. -/
def next_image (rnd : ℕ → ℕ) (fuel : ℕ) (s : State) : Option State :=
  if s.image_files = [] then some s
  else if s.is_random_mode then
    if 0 ≤ s.random_sequence_position ∧
        s.random_sequence_position < (s.random_sequence.length : ℤ) - 1 then
      some (finish_next
        { s with random_sequence_position := s.random_sequence_position + 1,
                 current_index :=
                   s.random_sequence.getD (s.random_sequence_position + 1).toNat 0 })
    else
      match draw_new_index rnd (tail_append s).current_index
          (tail_append s).image_files.length (tail_append s).rand_k fuel with
      | none => none
      | some (v, k') =>
        some (finish_next
          { tail_append s with
              current_index := v, rand_k := k',
              random_sequence := trim15 ((tail_append s).random_sequence ++ [v]),
              random_sequence_position :=
                ((trim15 ((tail_append s).random_sequence ++ [v])).length : ℤ) - 1 })
  else
    some (finish_next
      { s with current_index := (s.current_index + 1) % s.image_files.length,
               random_sequence := [], random_sequence_position := -1 })

/-- Lines 737-746 of `previous_image`: when at the end of the history (or the
position is untracked), append the current index unless it already is the
tail, trimming to 15 entries. -/
def prev_tail_append (s : State) : State :=
  if s.random_sequence_position = -1 ∨
      s.random_sequence_position = (s.random_sequence.length : ℤ) - 1 then
    if s.random_sequence = [] ∨ s.random_sequence.getLast? ≠ some s.current_index then
      { s with random_sequence := trim15 (s.random_sequence ++ [s.current_index]),
               random_sequence_position :=
                 ((trim15 (s.random_sequence ++ [s.current_index])).length : ℤ) - 1 }
    else s
  else s

/-- Lines 748-764 of `previous_image`: step back through the history when it
has more than one entry (staying at its first entry once reached); with a
single entry return to it; with an empty history draw a plain random index. -/
def prev_step (rnd : ℕ → ℕ) (s1 : State) : State :=
  if s1.random_sequence ≠ [] ∧ 1 < s1.random_sequence.length then
    if 0 < s1.random_sequence_position then
      { s1 with random_sequence_position := s1.random_sequence_position - 1,
                current_index :=
                  s1.random_sequence.getD (s1.random_sequence_position - 1).toNat 0 }
    else
      { s1 with current_index := s1.random_sequence.getD 0 0,
                random_sequence_position := 0 }
  else if s1.random_sequence ≠ [] then
    { s1 with current_index := s1.random_sequence.getD 0 0,
              random_sequence_position := 0 }
  else
    { s1 with current_index := randint rnd s1.rand_k s1.image_files.length,
              rand_k := s1.rand_k + 1 }

/-- Lines 730-771: go back.  Sequential: `(i - 1) mod N`, the position is
untracked but the history array is kept.  Random: append the current index
at the tail if needed, then step back through the history. -/
def previous_image (rnd : ℕ → ℕ) (s : State) : State :=
  if s.image_files = [] then s
  else if s.is_random_mode then
    display_image (prev_step rnd (prev_tail_append s))
      ((prev_step rnd (prev_tail_append s)).image_files.getD
        (prev_step rnd (prev_tail_append s)).current_index 0)
  else
    display_image
      { s with current_index :=
                 (((s.current_index : ℤ) - 1) % (s.image_files.length : ℤ)).toNat,
               random_sequence_position := -1 }
      (s.image_files.getD
        ((((s.current_index : ℤ) - 1) % (s.image_files.length : ℤ)).toNat) 0)

/-- Lines 531-564 (`load_images`), modelled over an unchanged filesystem: the
catalog keeps its members and is re-sorted when not in random mode. -/
def load_images (s : State) : State :=
  if s.image_files ≠ [] ∧ s.is_random_mode = false then
    { s with image_files := s.image_files.insertionSort (· ≤ ·) }
  else s

/-- Lines 773-809: flip the mode.  Turning random on seeds the history with
the current index; turning it off reloads the sorted catalog and clears the
history.  The current index is never written. -/
def toggle_random_mode (s : State) : State :=
  let was := s.is_random_mode
  let s0 := { s with is_random_mode := !s.is_random_mode }
  if s0.is_random_mode then
    if was = false then
      { s0 with random_sequence := [s0.current_index], random_sequence_position := 0 }
    else if s0.random_sequence = [] then
      { s0 with random_sequence := [s0.current_index], random_sequence_position := 0 }
    else if s0.current_index ∈ s0.random_sequence then
      { s0 with random_sequence_position :=
          (s0.random_sequence.indexOf s0.current_index : ℤ) }
    else
      { s0 with random_sequence := s0.random_sequence ++ [s0.current_index],
                random_sequence_position :=
                  ((s0.random_sequence ++ [s0.current_index]).length : ℤ) - 1 }
  else
    let s2 := load_images s0
    { s2 with random_sequence := [], random_sequence_position := -1 }

/-- Lines 822-840 (`update_speed`): store the new duration computed from the
slider value `v` (Python evaluates the formula in floating point; it is
modelled exactly over ℚ), and if auto-advance runs, cancel the pending tick
and reschedule with the new duration. -/
def update_speed (v : ℚ) (s : State) : State :=
  let s0 := { s with display_duration := 500 + (10000 - 500) * (1 - v / 100) }
  if s0.slideshow_running then
    let s1 :=
      match s0.pending_timer with
      | some h => root_after_cancel h s0
      | none => s0
    let t := root_after s1
    { t.1 with pending_timer := some t.2 }
  else s0

/-- Lines 842-857 (`toggle_auto_advance`): flip the running flag; when now
running schedule a tick, otherwise cancel the stored pending handle. -/
def toggle_auto_advance (s : State) : State :=
  let s0 := { s with slideshow_running := !s.slideshow_running }
  if s0.slideshow_running then
    let t := root_after s0
    { t.1 with pending_timer := some t.2 }
  else
    match s0.pending_timer with
    | some h => root_after_cancel h s0
    | none => s0

/-- `self.navigation_locked` read at event time `now`. -/
def navigation_locked (s : State) (now : ℕ) : Bool :=
  match s.lock_until with
  | some u => decide (now < u)
  | none => false

/-- Lines 635-657 (`debounced_next_image`): reject while locked or within
300 ms of the last accepted right key; otherwise record the time, lock,
run `next_image` and schedule the unlock 300 ms later.  The returned flag
says whether `next_image` was invoked. -/
def debounced_next_image (rnd : ℕ → ℕ) (fuel : ℕ) (now : ℕ) (s : State) :
    Option (Bool × State) :=
  if navigation_locked s now then some (false, s)
  else if (match s.last_key_right with
           | some t => decide (now - t < 300)
           | none => false) then some (false, s)
  else
    match next_image rnd fuel
        { s with last_key_right := some now, lock_until := some (now + 300) } with
    | none => none
    | some s2 => some (true, s2)

/-- Lines 659-681 (`debounced_previous_image`), same gating on the left key. -/
def debounced_previous_image (rnd : ℕ → ℕ) (now : ℕ) (s : State) : Bool × State :=
  if navigation_locked s now then (false, s)
  else if (match s.last_key_left with
           | some t => decide (now - t < 300)
           | none => false) then (false, s)
  else
    (true, previous_image rnd
      { s with last_key_left := some now, lock_until := some (now + 300) })

/-- The event loop delivering a due auto-advance tick: the handle leaves the
live set and the scheduled callback (`next_image`) runs. -/
def fire_tick (rnd : ℕ → ℕ) (fuel : ℕ) (h : ℕ) (s : State) : Option State :=
  if h ∈ s.live_timers then
    next_image rnd fuel { s with live_timers := s.live_timers.erase h }
  else some s

/-- The state right after `__init__`, `load_images` and `start_slideshow`:
sorted catalog, index 0, sequential mode, empty history, manual mode, the
first image displayed when the catalog is non-empty. -/
def initState (f : List ℕ) : State :=
  let fs := f.insertionSort (· ≤ ·)
  { image_files := fs
    current_index := 0
    is_random_mode := false
    random_sequence := []
    random_sequence_position := -1
    rand_k := 0
    display_log := if fs = [] then [] else [fs.getD 0 0]
    slideshow_running := false
    pending_timer := none
    live_timers := []
    next_handle := 0
    last_key_right := none
    last_key_left := none
    lock_until := none
    display_duration := 3000 }

/-- One event handled by the single-threaded event loop: a key or button
triggering navigation, a mode or speed change, or a timer tick firing. -/
inductive Step : State → State → Prop
  | next (rnd : ℕ → ℕ) (fuel : ℕ) (s s' : State) :
      next_image rnd fuel s = some s' → Step s s'
  | prev (rnd : ℕ → ℕ) (s : State) : Step s (previous_image rnd s)
  | toggleRandom (s : State) : Step s (toggle_random_mode s)
  | toggleAuto (s : State) : Step s (toggle_auto_advance s)
  | speed (v : ℚ) (s : State) : Step s (update_speed v s)
  | debNext (rnd : ℕ → ℕ) (fuel now : ℕ) (s : State) (b : Bool) (s' : State) :
      debounced_next_image rnd fuel now s = some (b, s') → Step s s'
  | debPrev (rnd : ℕ → ℕ) (now : ℕ) (s : State) :
      Step s (debounced_previous_image rnd now s).2
  | fire (rnd : ℕ → ℕ) (fuel h : ℕ) (s s' : State) :
      fire_tick rnd fuel h s = some s' → Step s s'

/-- States the session can reach from a fresh start on catalog `f`. -/
def Reachable (f : List ℕ) (s : State) : Prop :=
  Relation.ReflTransGen Step (initState f) s

/-- The navigation invariant maintained by every event: bounded history, a
sorted catalog, pairwise-distinct neighbours in the history (when rejection
sampling is active, i.e. `1 < N`), and in random mode a position that is in
range and names the current index. -/
def NavInv (s : State) : Prop :=
  s.random_sequence.length ≤ 15 ∧
  s.image_files.Sorted (· ≤ ·) ∧
  (1 < s.image_files.length → s.random_sequence.Chain' (· ≠ ·)) ∧
  (s.is_random_mode = true →
    0 ≤ s.random_sequence_position ∧
    s.random_sequence_position.toNat < s.random_sequence.length ∧
    s.random_sequence.getD s.random_sequence_position.toNat 0 = s.current_index)

/-- Iterated forward navigation (repeated `next_image` calls). -/
def iterNext (rnd : ℕ → ℕ) (fuel : ℕ) : ℕ → State → Option State
  | 0, s => some s
  | m + 1, s =>
    match next_image rnd fuel s with
    | none => none
    | some s' => iterNext rnd fuel m s'

/-! ## List helpers -/

theorem getD_drop (l : List ℕ) (n i : ℕ) : (l.drop n).getD i 0 = l.getD (n + i) 0 := by
  simp [List.getD_eq_getElem?_getD, List.getElem?_drop]

theorem getD_append_left (l m : List ℕ) (i : ℕ) (h : i < l.length) :
    (l ++ m).getD i 0 = l.getD i 0 := by
  simp [List.getD_eq_getElem?_getD, List.getElem?_append_left h]

theorem getD_concat_self (l : List ℕ) (a : ℕ) : (l ++ [a]).getD l.length 0 = a := by
  simp [List.getD_eq_getElem?_getD, List.getElem?_concat_length]

theorem getD_eq_get (l : List ℕ) (i : ℕ) (h : i < l.length) :
    l.getD i 0 = l.get ⟨i, h⟩ := by
  simp [List.getD_eq_getElem?_getD, List.getElem?_eq_getElem h, List.get_eq_getElem]

theorem getLast?_eq_getD (l : List ℕ) (h : l ≠ []) :
    l.getLast? = some (l.getD (l.length - 1) 0) := by
  have hl : 0 < l.length := List.length_pos.mpr h
  rw [List.getLast?_eq_getElem?, List.getElem?_eq_getElem (by omega),
    getD_eq_get l (l.length - 1) (by omega)]
  simp [List.get_eq_getElem]

theorem chain'_ne_getD (l : List ℕ) (h : l.Chain' (· ≠ ·)) (i : ℕ)
    (hi : i + 1 < l.length) : l.getD i 0 ≠ l.getD (i + 1) 0 := by
  rw [getD_eq_get l i (by omega), getD_eq_get l (i + 1) hi]
  exact List.chain'_iff_get.mp h i (by omega)

theorem trim15_length (l : List ℕ) : (trim15 l).length = min l.length 15 := by
  unfold trim15
  split <;> simp <;> omega

theorem trim15_getD (l : List ℕ) (i : ℕ) :
    (trim15 l).getD i 0 = l.getD (l.length - min l.length 15 + i) 0 := by
  unfold trim15
  split
  · rw [getD_drop]
    congr 1
    omega
  · congr 1
    omega

theorem trim15_chain' (l : List ℕ) (h : l.Chain' (· ≠ ·)) :
    (trim15 l).Chain' (· ≠ ·) := by
  unfold trim15
  split
  · exact h.drop _
  · exact h

theorem trim15_suffix (l : List ℕ) : (trim15 l).IsSuffix l := by
  unfold trim15
  split
  · exact List.drop_suffix _ _
  · exact List.suffix_refl l

theorem draw_new_index_spec (rnd : ℕ → ℕ) (cur n : ℕ) :
    ∀ fuel k v k', draw_new_index rnd cur n k fuel = some (v, k') →
      1 < n → v ≠ cur := by
  intro fuel
  induction fuel with
  | zero => intro k v k' h; simp [draw_new_index] at h
  | succ m ih =>
    intro k v k' h hn
    unfold draw_new_index at h
    by_cases hc : randint rnd k n = cur ∧ 1 < n
    · rw [if_pos hc] at h
      exact ih (k + 1) v k' h hn
    · rw [if_neg hc] at h
      simp only [Option.some.injEq, Prod.mk.injEq] at h
      rcases h with ⟨hv, _⟩
      intro hvc
      exact hc ⟨hv ▸ hvc, hn⟩

/-! ## Frame lemmas: which fields each operation leaves alone -/

@[simp] theorem display_image_current (s : State) (p : ℕ) :
    (display_image s p).current_index = s.current_index := rfl
@[simp] theorem display_image_files (s : State) (p : ℕ) :
    (display_image s p).image_files = s.image_files := rfl
@[simp] theorem display_image_mode (s : State) (p : ℕ) :
    (display_image s p).is_random_mode = s.is_random_mode := rfl
@[simp] theorem display_image_seq (s : State) (p : ℕ) :
    (display_image s p).random_sequence = s.random_sequence := rfl
@[simp] theorem display_image_pos (s : State) (p : ℕ) :
    (display_image s p).random_sequence_position = s.random_sequence_position := rfl
@[simp] theorem display_image_k (s : State) (p : ℕ) :
    (display_image s p).rand_k = s.rand_k := rfl
@[simp] theorem display_image_lock (s : State) (p : ℕ) :
    (display_image s p).lock_until = s.lock_until := rfl
@[simp] theorem display_image_log (s : State) (p : ℕ) :
    (display_image s p).display_log = s.display_log ++ [p] := rfl

@[simp] theorem finish_next_current (s : State) :
    (finish_next s).current_index = s.current_index := by
  unfold finish_next root_after
  dsimp only
  split <;> rfl
@[simp] theorem finish_next_files (s : State) :
    (finish_next s).image_files = s.image_files := by
  unfold finish_next root_after
  dsimp only
  split <;> rfl
@[simp] theorem finish_next_mode (s : State) :
    (finish_next s).is_random_mode = s.is_random_mode := by
  unfold finish_next root_after
  dsimp only
  split <;> rfl
@[simp] theorem finish_next_seq (s : State) :
    (finish_next s).random_sequence = s.random_sequence := by
  unfold finish_next root_after
  dsimp only
  split <;> rfl
@[simp] theorem finish_next_pos (s : State) :
    (finish_next s).random_sequence_position = s.random_sequence_position := by
  unfold finish_next root_after
  dsimp only
  split <;> rfl
@[simp] theorem finish_next_k (s : State) :
    (finish_next s).rand_k = s.rand_k := by
  unfold finish_next root_after
  dsimp only
  split <;> rfl
@[simp] theorem finish_next_lock (s : State) :
    (finish_next s).lock_until = s.lock_until := by
  unfold finish_next root_after
  dsimp only
  split <;> rfl
@[simp] theorem finish_next_log (s : State) :
    (finish_next s).display_log =
      s.display_log ++ [s.image_files.getD s.current_index 0] := by
  unfold finish_next root_after
  dsimp only
  split <;> rfl

@[simp] theorem tail_append_current (s : State) :
    (tail_append s).current_index = s.current_index := by
  unfold tail_append
  split <;> rfl
@[simp] theorem tail_append_files (s : State) :
    (tail_append s).image_files = s.image_files := by
  unfold tail_append
  split <;> rfl
@[simp] theorem tail_append_mode (s : State) :
    (tail_append s).is_random_mode = s.is_random_mode := by
  unfold tail_append
  split <;> rfl
@[simp] theorem tail_append_k (s : State) :
    (tail_append s).rand_k = s.rand_k := by
  unfold tail_append
  split <;> rfl
@[simp] theorem tail_append_lock (s : State) :
    (tail_append s).lock_until = s.lock_until := by
  unfold tail_append
  split <;> rfl
@[simp] theorem tail_append_log (s : State) :
    (tail_append s).display_log = s.display_log := by
  unfold tail_append
  split <;> rfl
@[simp] theorem tail_append_running (s : State) :
    (tail_append s).slideshow_running = s.slideshow_running := by
  unfold tail_append
  split <;> rfl

@[simp] theorem prev_tail_append_current (s : State) :
    (prev_tail_append s).current_index = s.current_index := by
  unfold prev_tail_append
  split
  · split <;> rfl
  · rfl
@[simp] theorem prev_tail_append_files (s : State) :
    (prev_tail_append s).image_files = s.image_files := by
  unfold prev_tail_append
  split
  · split <;> rfl
  · rfl
@[simp] theorem prev_tail_append_mode (s : State) :
    (prev_tail_append s).is_random_mode = s.is_random_mode := by
  unfold prev_tail_append
  split
  · split <;> rfl
  · rfl
@[simp] theorem prev_tail_append_k (s : State) :
    (prev_tail_append s).rand_k = s.rand_k := by
  unfold prev_tail_append
  split
  · split <;> rfl
  · rfl
@[simp] theorem prev_tail_append_lock (s : State) :
    (prev_tail_append s).lock_until = s.lock_until := by
  unfold prev_tail_append
  split
  · split <;> rfl
  · rfl
@[simp] theorem prev_tail_append_log (s : State) :
    (prev_tail_append s).display_log = s.display_log := by
  unfold prev_tail_append
  split
  · split <;> rfl
  · rfl

@[simp] theorem prev_step_files (rnd : ℕ → ℕ) (s : State) :
    (prev_step rnd s).image_files = s.image_files := by
  unfold prev_step
  split
  · split <;> rfl
  · split <;> rfl
@[simp] theorem prev_step_mode (rnd : ℕ → ℕ) (s : State) :
    (prev_step rnd s).is_random_mode = s.is_random_mode := by
  unfold prev_step
  split
  · split <;> rfl
  · split <;> rfl
@[simp] theorem prev_step_seq (rnd : ℕ → ℕ) (s : State) :
    (prev_step rnd s).random_sequence = s.random_sequence := by
  unfold prev_step
  split
  · split <;> rfl
  · split <;> rfl
@[simp] theorem prev_step_lock (rnd : ℕ → ℕ) (s : State) :
    (prev_step rnd s).lock_until = s.lock_until := by
  unfold prev_step
  split
  · split <;> rfl
  · split <;> rfl
@[simp] theorem prev_step_log (rnd : ℕ → ℕ) (s : State) :
    (prev_step rnd s).display_log = s.display_log := by
  unfold prev_step
  split
  · split <;> rfl
  · split <;> rfl

/-- Full case analysis of a successful `next_image` call. -/
theorem next_image_cases (rnd : ℕ → ℕ) (fuel : ℕ) (s s' : State)
    (h : next_image rnd fuel s = some s') :
    (s.image_files = [] ∧ s' = s) ∨
    (s.image_files ≠ [] ∧ s.is_random_mode = true ∧
      (0 ≤ s.random_sequence_position ∧
        s.random_sequence_position < (s.random_sequence.length : ℤ) - 1) ∧
      s' = finish_next
        { s with random_sequence_position := s.random_sequence_position + 1,
                 current_index :=
                   s.random_sequence.getD (s.random_sequence_position + 1).toNat 0 }) ∨
    (s.image_files ≠ [] ∧ s.is_random_mode = true ∧
      ¬(0 ≤ s.random_sequence_position ∧
        s.random_sequence_position < (s.random_sequence.length : ℤ) - 1) ∧
      ∃ v k', draw_new_index rnd (tail_append s).current_index
          (tail_append s).image_files.length (tail_append s).rand_k fuel =
            some (v, k') ∧
        s' = finish_next
          { tail_append s with
              current_index := v, rand_k := k',
              random_sequence := trim15 ((tail_append s).random_sequence ++ [v]),
              random_sequence_position :=
                ((trim15 ((tail_append s).random_sequence ++ [v])).length : ℤ) - 1 }) ∨
    (s.image_files ≠ [] ∧ s.is_random_mode = false ∧
      s' = finish_next
        { s with current_index := (s.current_index + 1) % s.image_files.length,
                 random_sequence := [], random_sequence_position := -1 }) := by
  unfold next_image at h
  by_cases h0 : s.image_files = []
  · rw [if_pos h0] at h
    simp only [Option.some.injEq] at h
    exact Or.inl ⟨h0, h.symm⟩
  · rw [if_neg h0] at h
    by_cases h1 : s.is_random_mode = true
    · rw [if_pos h1] at h
      by_cases h2 : 0 ≤ s.random_sequence_position ∧
          s.random_sequence_position < (s.random_sequence.length : ℤ) - 1
      · rw [if_pos h2] at h
        simp only [Option.some.injEq] at h
        exact Or.inr (Or.inl ⟨h0, h1, h2, h.symm⟩)
      · rw [if_neg h2] at h
        cases hd : draw_new_index rnd (tail_append s).current_index
            (tail_append s).image_files.length (tail_append s).rand_k fuel with
        | none =>
          rw [hd] at h
          simp at h
        | some p =>
          obtain ⟨v, k'⟩ := p
          rw [hd] at h
          simp only [Option.some.injEq] at h
          exact Or.inr (Or.inr (Or.inl ⟨h0, h1, h2, v, k', rfl, h.symm⟩))
    · rw [if_neg h1] at h
      simp only [Option.some.injEq] at h
      have h1' : s.is_random_mode = false := by
        revert h1
        cases s.is_random_mode <;> simp
      exact Or.inr (Or.inr (Or.inr ⟨h0, h1', h.symm⟩))

theorem next_image_files (rnd : ℕ → ℕ) (fuel : ℕ) (s s' : State)
    (h : next_image rnd fuel s = some s') : s'.image_files = s.image_files := by
  rcases next_image_cases rnd fuel s s' h with
    ⟨_, rfl⟩ | ⟨_, _, _, rfl⟩ | ⟨_, _, _, v, k', _, rfl⟩ | ⟨_, _, rfl⟩ <;> simp

theorem next_image_mode (rnd : ℕ → ℕ) (fuel : ℕ) (s s' : State)
    (h : next_image rnd fuel s = some s') : s'.is_random_mode = s.is_random_mode := by
  rcases next_image_cases rnd fuel s s' h with
    ⟨_, rfl⟩ | ⟨_, _, _, rfl⟩ | ⟨_, _, _, v, k', _, rfl⟩ | ⟨_, _, rfl⟩ <;> simp

theorem next_image_lock (rnd : ℕ → ℕ) (fuel : ℕ) (s s' : State)
    (h : next_image rnd fuel s = some s') : s'.lock_until = s.lock_until := by
  rcases next_image_cases rnd fuel s s' h with
    ⟨_, rfl⟩ | ⟨_, _, _, rfl⟩ | ⟨_, _, _, v, k', _, rfl⟩ | ⟨_, _, rfl⟩ <;> simp

theorem next_image_log (rnd : ℕ → ℕ) (fuel : ℕ) (s s' : State)
    (h : next_image rnd fuel s = some s') (h0 : s.image_files ≠ []) :
    s'.display_log = s.display_log ++ [s'.image_files.getD s'.current_index 0] := by
  rcases next_image_cases rnd fuel s s' h with
    ⟨he, rfl⟩ | ⟨_, _, _, rfl⟩ | ⟨_, _, _, v, k', _, rfl⟩ | ⟨_, _, rfl⟩
  · exact absurd he h0
  all_goals simp

/-- A successful `next_image` in random mode strictly before the history tail
replays the next history entry (the redo path: no random draw occurs). -/
theorem next_image_redo (rnd : ℕ → ℕ) (fuel : ℕ) (s : State)
    (h0 : s.image_files ≠ []) (h1 : s.is_random_mode = true)
    (h2 : 0 ≤ s.random_sequence_position)
    (h3 : s.random_sequence_position < (s.random_sequence.length : ℤ) - 1) :
    next_image rnd fuel s = some (finish_next
      { s with random_sequence_position := s.random_sequence_position + 1,
               current_index :=
                 s.random_sequence.getD (s.random_sequence_position + 1).toNat 0 }) := by
  unfold next_image
  rw [if_neg h0, if_pos h1, if_pos ⟨h2, h3⟩]

/-- `next_image` in sequential mode always succeeds: increment mod N and
clear the history. -/
theorem next_image_seq (rnd : ℕ → ℕ) (fuel : ℕ) (s : State)
    (h0 : s.image_files ≠ []) (h1 : s.is_random_mode = false) :
    next_image rnd fuel s = some (finish_next
      { s with current_index := (s.current_index + 1) % s.image_files.length,
               random_sequence := [], random_sequence_position := -1 }) := by
  unfold next_image
  rw [if_neg h0, if_neg (by simp [h1])]

@[simp] theorem toggle_auto_seq (s : State) :
    (toggle_auto_advance s).random_sequence = s.random_sequence := by
  unfold toggle_auto_advance root_after root_after_cancel
  dsimp only
  split
  · rfl
  · split <;> rfl
@[simp] theorem toggle_auto_files (s : State) :
    (toggle_auto_advance s).image_files = s.image_files := by
  unfold toggle_auto_advance root_after root_after_cancel
  dsimp only
  split
  · rfl
  · split <;> rfl
@[simp] theorem toggle_auto_mode (s : State) :
    (toggle_auto_advance s).is_random_mode = s.is_random_mode := by
  unfold toggle_auto_advance root_after root_after_cancel
  dsimp only
  split
  · rfl
  · split <;> rfl
@[simp] theorem toggle_auto_pos (s : State) :
    (toggle_auto_advance s).random_sequence_position = s.random_sequence_position := by
  unfold toggle_auto_advance root_after root_after_cancel
  dsimp only
  split
  · rfl
  · split <;> rfl
@[simp] theorem toggle_auto_current (s : State) :
    (toggle_auto_advance s).current_index = s.current_index := by
  unfold toggle_auto_advance root_after root_after_cancel
  dsimp only
  split
  · rfl
  · split <;> rfl

@[simp] theorem update_speed_seq (v : ℚ) (s : State) :
    (update_speed v s).random_sequence = s.random_sequence := by
  unfold update_speed root_after root_after_cancel
  dsimp only
  split
  · split <;> rfl
  · rfl
@[simp] theorem update_speed_files (v : ℚ) (s : State) :
    (update_speed v s).image_files = s.image_files := by
  unfold update_speed root_after root_after_cancel
  dsimp only
  split
  · split <;> rfl
  · rfl
@[simp] theorem update_speed_mode (v : ℚ) (s : State) :
    (update_speed v s).is_random_mode = s.is_random_mode := by
  unfold update_speed root_after root_after_cancel
  dsimp only
  split
  · split <;> rfl
  · rfl
@[simp] theorem update_speed_pos (v : ℚ) (s : State) :
    (update_speed v s).random_sequence_position = s.random_sequence_position := by
  unfold update_speed root_after root_after_cancel
  dsimp only
  split
  · split <;> rfl
  · rfl
@[simp] theorem update_speed_current (v : ℚ) (s : State) :
    (update_speed v s).current_index = s.current_index := by
  unfold update_speed root_after root_after_cancel
  dsimp only
  split
  · split <;> rfl
  · rfl

/-- `NavInv` only reads the five navigation fields. -/
theorem navInv_congr (s s' : State)
    (h1 : s'.random_sequence = s.random_sequence)
    (h2 : s'.image_files = s.image_files)
    (h3 : s'.is_random_mode = s.is_random_mode)
    (h4 : s'.random_sequence_position = s.random_sequence_position)
    (h5 : s'.current_index = s.current_index) :
    NavInv s → NavInv s' := by
  intro hI
  unfold NavInv at *
  rw [h1, h2, h3, h4, h5]
  exact hI

/-- When the position invariant holds and the position is at the tail, the
history tail already is the current index. -/
theorem hist_last_eq (s : State)
    (hplen : s.random_sequence_position.toNat < s.random_sequence.length)
    (hpidx : s.random_sequence.getD s.random_sequence_position.toNat 0 =
      s.current_index)
    (hptail : s.random_sequence_position.toNat = s.random_sequence.length - 1) :
    s.random_sequence.getLast? = some s.current_index := by
  have hne : s.random_sequence ≠ [] := by
    intro he
    rw [he] at hplen
    simp at hplen
  rw [getLast?_eq_getD _ hne, ← hptail, hpidx]

theorem tail_append_eq_self (s : State)
    (hlast : s.random_sequence.getLast? = some s.current_index)
    (hne : s.random_sequence ≠ []) : tail_append s = s := by
  unfold tail_append
  rw [if_neg]
  push_neg
  exact ⟨hne, hlast⟩

theorem prev_tail_append_eq_self (s : State)
    (hp0 : 0 ≤ s.random_sequence_position)
    (hplen : s.random_sequence_position.toNat < s.random_sequence.length)
    (hpidx : s.random_sequence.getD s.random_sequence_position.toNat 0 =
      s.current_index) : prev_tail_append s = s := by
  unfold prev_tail_append
  split
  · rename_i hc
    have hptail : s.random_sequence_position.toNat = s.random_sequence.length - 1 := by
      rcases hc with hc | hc <;> omega
    rw [if_neg]
    push_neg
    refine ⟨?_, hist_last_eq s hplen hpidx hptail⟩
    intro he
    rw [he] at hplen
    simp at hplen
  · rfl

/-- `NavInv` is preserved by a successful `next_image`. -/
theorem navInv_next (rnd : ℕ → ℕ) (fuel : ℕ) (s s' : State) (hI : NavInv s)
    (h : next_image rnd fuel s = some s') : NavInv s' := by
  obtain ⟨hlen, hsort, hchain, hrand⟩ := hI
  rcases next_image_cases rnd fuel s s' h with
    ⟨h0, rfl⟩ | ⟨h0, h1, h2, rfl⟩ | ⟨h0, h1, h2, v, k', hd, rfl⟩ | ⟨h0, h1, rfl⟩
  · exact ⟨hlen, hsort, hchain, hrand⟩
  · -- redo path: replay the next history entry
    obtain ⟨hp0, hplen, hpidx⟩ := hrand h1
    refine ⟨by simpa using hlen, by simpa using hsort, by simpa using hchain, ?_⟩
    intro _
    refine ⟨by simp; omega, by simp; omega, by simp⟩
  · -- fresh draw path
    obtain ⟨hp0, hplen, hpidx⟩ := hrand h1
    push_neg at h2
    have hptail : s.random_sequence_position.toNat = s.random_sequence.length - 1 := by
      have := h2 hp0
      omega
    have hne : s.random_sequence ≠ [] := by
      intro he
      rw [he] at hplen
      simp at hplen
    have hlast : s.random_sequence.getLast? = some s.current_index :=
      hist_last_eq s hplen hpidx hptail
    have hta : tail_append s = s := tail_append_eq_self s hlast hne
    rw [hta] at hd ⊢
    have hvne : 1 < s.image_files.length → v ≠ s.current_index := fun hN =>
      draw_new_index_spec rnd s.current_index s.image_files.length fuel
        s.rand_k v k' hd hN
    have hTlen : (trim15 (s.random_sequence ++ [v])).length =
        min (s.random_sequence.length + 1) 15 := by
      rw [trim15_length]
      simp
    refine ⟨?_, by simpa using hsort, ?_, ?_⟩
    · simp only [finish_next_seq]
      omega
    · intro hN
      have hN' : 1 < s.image_files.length := by simpa using hN
      simp only [finish_next_seq]
      apply trim15_chain'
      apply List.chain'_append.mpr
      refine ⟨hchain hN', List.chain'_singleton v, ?_⟩
      intro x hx y hy
      rw [hlast] at hx
      simp at hx hy
      subst hx
      subst hy
      exact Ne.symm (hvne hN')
    · intro _
      refine ⟨by simp; omega, by simp; omega, ?_⟩
      simp only [finish_next_seq, finish_next_pos, finish_next_current]
      rw [trim15_getD]
      have hix : (s.random_sequence ++ [v]).length -
          min (s.random_sequence ++ [v]).length 15 +
          ((((trim15 (s.random_sequence ++ [v])).length : ℤ) - 1)).toNat =
          s.random_sequence.length := by
        simp only [List.length_append, List.length_singleton]
        omega
      rw [hix, getD_concat_self]
  · -- sequential path
    refine ⟨by simp, by simpa using hsort, by simp, ?_⟩
    intro hm
    simp [h1] at hm

/-- `NavInv` is preserved by `previous_image`. -/
theorem navInv_prev (rnd : ℕ → ℕ) (s : State) (hI : NavInv s) :
    NavInv (previous_image rnd s) := by
  obtain ⟨hlen, hsort, hchain, hrand⟩ := hI
  unfold previous_image
  by_cases h0 : s.image_files = []
  · rw [if_pos h0]
    exact ⟨hlen, hsort, hchain, hrand⟩
  · rw [if_neg h0]
    by_cases h1 : s.is_random_mode = true
    · rw [if_pos h1]
      obtain ⟨hp0, hplen, hpidx⟩ := hrand h1
      have hpta : prev_tail_append s = s := prev_tail_append_eq_self s hp0 hplen hpidx
      rw [hpta]
      have hne : s.random_sequence ≠ [] := by
        intro he
        rw [he] at hplen
        simp at hplen
      have hstep : NavInv (prev_step rnd s) := by
        unfold prev_step
        by_cases hl : s.random_sequence ≠ [] ∧ 1 < s.random_sequence.length
        · rw [if_pos hl]
          by_cases hp : 0 < s.random_sequence_position
          · rw [if_pos hp]
            refine ⟨by simpa using hlen, by simpa using hsort, by simpa using hchain, ?_⟩
            intro _
            refine ⟨by simp; omega, by simp; omega, by simp⟩
          · rw [if_neg hp]
            refine ⟨by simpa using hlen, by simpa using hsort, by simpa using hchain, ?_⟩
            intro _
            refine ⟨by simp, by simp; omega, by simp⟩
        · rw [if_neg hl]
          rw [if_pos hne]
          refine ⟨by simpa using hlen, by simpa using hsort, by simpa using hchain, ?_⟩
          intro _
          refine ⟨by simp, by simp; omega, by simp⟩
      exact navInv_congr _ _ (by simp) (by simp) (by simp) (by simp) (by simp) hstep
    · rw [if_neg h1]
      have h1' : s.is_random_mode = false := by
        revert h1
        cases s.is_random_mode <;> simp
      refine ⟨by simpa using hlen, by simpa using hsort, by simpa using hchain, ?_⟩
      intro hm
      simp [h1'] at hm

/-- Turning random mode on from sequential seeds the history with the current
index (lines 779-783). -/
theorem toggle_random_of_false (s : State) (hm : s.is_random_mode = false) :
    toggle_random_mode s =
      { s with is_random_mode := true, random_sequence := [s.current_index],
               random_sequence_position := 0 } := by
  unfold toggle_random_mode
  rw [hm]
  rfl

/-- Turning random mode off reloads the catalog and clears the history
(lines 799-804). -/
theorem toggle_random_of_true (s : State) (hm : s.is_random_mode = true) :
    toggle_random_mode s =
      { load_images { s with is_random_mode := false } with
          random_sequence := [], random_sequence_position := -1 } := by
  unfold toggle_random_mode
  rw [hm]
  rfl

/-- `NavInv` is preserved by `toggle_random_mode`. -/
theorem navInv_toggle_random (s : State) (hI : NavInv s) :
    NavInv (toggle_random_mode s) := by
  obtain ⟨hlen, hsort, hchain, hrand⟩ := hI
  cases hm : s.is_random_mode with
  | false =>
    rw [toggle_random_of_false s hm]
    refine ⟨by simp, by simpa using hsort, by simp, ?_⟩
    intro _
    refine ⟨by simp, by simp, by simp⟩
  | true =>
    rw [toggle_random_of_true s hm]
    unfold load_images
    by_cases hf : s.image_files = []
    · rw [if_neg (by simp [hf])]
      exact ⟨by simp, by simpa using hsort, by simp, by simp⟩
    · rw [if_pos ⟨hf, rfl⟩]
      refine ⟨by simp, ?_, by simp, by simp⟩
      simpa using List.sorted_insertionSort (α := ℕ) (· ≤ ·) s.image_files

theorem navInv_fire (rnd : ℕ → ℕ) (fuel h : ℕ) (s s' : State) (hI : NavInv s)
    (hf : fire_tick rnd fuel h s = some s') : NavInv s' := by
  unfold fire_tick at hf
  split at hf
  · exact navInv_next rnd fuel { s with live_timers := s.live_timers.erase h } s'
      (navInv_congr s { s with live_timers := s.live_timers.erase h }
        rfl rfl rfl rfl rfl hI) hf
  · simp only [Option.some.injEq] at hf
    rw [← hf]
    exact hI

theorem navInv_debounced_next (rnd : ℕ → ℕ) (fuel now : ℕ) (s : State) (b : Bool)
    (s' : State) (hI : NavInv s)
    (hd : debounced_next_image rnd fuel now s = some (b, s')) : NavInv s' := by
  unfold debounced_next_image at hd
  split at hd
  · simp only [Option.some.injEq, Prod.mk.injEq] at hd
    rw [← hd.2]
    exact hI
  · split at hd
    · simp only [Option.some.injEq, Prod.mk.injEq] at hd
      rw [← hd.2]
      exact hI
    · cases hn : next_image rnd fuel
          { s with last_key_right := some now, lock_until := some (now + 300) } with
      | none =>
        rw [hn] at hd
        simp at hd
      | some s2 =>
        rw [hn] at hd
        simp only [Option.some.injEq, Prod.mk.injEq] at hd
        rw [← hd.2]
        exact navInv_next rnd fuel
          { s with last_key_right := some now, lock_until := some (now + 300) } s2
          (navInv_congr s
            { s with last_key_right := some now, lock_until := some (now + 300) }
            rfl rfl rfl rfl rfl hI) hn

theorem navInv_debounced_prev (rnd : ℕ → ℕ) (now : ℕ) (s : State) (hI : NavInv s) :
    NavInv (debounced_previous_image rnd now s).2 := by
  unfold debounced_previous_image
  split
  · exact hI
  · split
    · exact hI
    · exact navInv_prev rnd
        { s with last_key_left := some now, lock_until := some (now + 300) }
        (navInv_congr s
          { s with last_key_left := some now, lock_until := some (now + 300) }
          rfl rfl rfl rfl rfl hI)

theorem navInv_step (s s' : State) (h : Step s s') (hI : NavInv s) : NavInv s' := by
  cases h with
  | next rnd fuel _ _ hn => exact navInv_next rnd fuel s s' hI hn
  | prev rnd _ => exact navInv_prev rnd s hI
  | toggleRandom _ => exact navInv_toggle_random s hI
  | toggleAuto _ =>
    exact navInv_congr _ _ (by simp) (by simp) (by simp) (by simp) (by simp) hI
  | speed v _ =>
    exact navInv_congr _ _ (by simp) (by simp) (by simp) (by simp) (by simp) hI
  | debNext rnd fuel now _ b _ hd => exact navInv_debounced_next rnd fuel now s b s' hI hd
  | debPrev rnd now _ => exact navInv_debounced_prev rnd now s hI
  | fire rnd fuel hh _ _ hf => exact navInv_fire rnd fuel hh s s' hI hf

theorem navInv_init (f : List ℕ) : NavInv (initState f) := by
  refine ⟨by simp [initState], ?_, by simp [initState], by simp [initState]⟩
  simpa [initState] using List.sorted_insertionSort _ f

/-- Every reachable state satisfies the navigation invariant. -/
theorem reachable_navInv (f : List ℕ) (s : State) (hr : Reachable f s) : NavInv s := by
  induction hr with
  | refl => exact navInv_init f
  | tail _ hstep ih => exact navInv_step _ _ hstep ih

/-- In sequential mode, iterated `next_image` always succeeds and rotates the
index modulo the catalog size. -/
theorem iterNext_seq (rnd : ℕ → ℕ) (fuel : ℕ) :
    ∀ (m : ℕ) (s : State), s.image_files ≠ [] → s.is_random_mode = false →
      s.current_index < s.image_files.length →
      ∃ s', iterNext rnd fuel m s = some s' ∧
        s'.current_index = (s.current_index + m) % s.image_files.length ∧
        s'.image_files = s.image_files ∧ s'.is_random_mode = false := by
  intro m
  induction m with
  | zero =>
    intro s h0 h1 hc
    exact ⟨s, rfl, by rw [Nat.add_zero, Nat.mod_eq_of_lt hc], rfl, h1⟩
  | succ m ih =>
    intro s h0 h1 hc
    have hn := next_image_seq rnd fuel s h0 h1
    have hNpos : 0 < s.image_files.length := List.length_pos.mpr h0
    set s1 := finish_next
      { s with current_index := (s.current_index + 1) % s.image_files.length,
               random_sequence := [], random_sequence_position := -1 } with hs1
    have hf1 : s1.image_files = s.image_files := by simp [hs1]
    have hm1 : s1.is_random_mode = false := by simp [hs1, h1]
    have hc1 : s1.current_index = (s.current_index + 1) % s.image_files.length := by
      simp [hs1]
    obtain ⟨s', hiter, hcur, hfeq, hmode⟩ :=
      ih s1 (by rw [hf1]; exact h0) hm1
        (by rw [hc1, hf1]; exact Nat.mod_lt _ hNpos)
    refine ⟨s', ?_, ?_, by rw [hfeq, hf1], hmode⟩
    · unfold iterNext
      rw [hn]
      exact hiter
    · rw [hcur, hc1, hf1, Nat.mod_add_mod]
      have harith : s.current_index + 1 + m = s.current_index + (m + 1) := by omega
      rw [harith]

/-- Under the invariant, in random mode, with more than one history entry and
a positive position, `previous_image` steps back one entry. -/
theorem previous_image_back (rnd : ℕ → ℕ) (s : State)
    (h0 : s.image_files ≠ []) (h1 : s.is_random_mode = true)
    (hp0 : 0 ≤ s.random_sequence_position)
    (hplen : s.random_sequence_position.toNat < s.random_sequence.length)
    (hpidx : s.random_sequence.getD s.random_sequence_position.toNat 0 =
      s.current_index)
    (hlen1 : 1 < s.random_sequence.length)
    (hp : 0 < s.random_sequence_position) :
    previous_image rnd s = display_image
      { s with random_sequence_position := s.random_sequence_position - 1,
               current_index :=
                 s.random_sequence.getD (s.random_sequence_position - 1).toNat 0 }
      (s.image_files.getD
        (s.random_sequence.getD (s.random_sequence_position - 1).toNat 0) 0) := by
  unfold previous_image
  rw [if_neg h0, if_pos h1]
  have hpta : prev_tail_append s = s := prev_tail_append_eq_self s hp0 hplen hpidx
  rw [hpta]
  have hne : s.random_sequence ≠ [] := by
    intro he
    rw [he] at hplen
    simp at hplen
  unfold prev_step
  rw [if_pos ⟨hne, hlen1⟩, if_pos hp]

/-- A `debounced_next_image` call that invokes `next_image` leaves the
navigation locked until 300 ms past its acceptance time. -/
theorem debounced_next_accepted (rnd : ℕ → ℕ) (fuel now : ℕ) (s s' : State)
    (hd : debounced_next_image rnd fuel now s = some (true, s')) :
    s'.lock_until = some (now + 300) := by
  unfold debounced_next_image at hd
  split at hd
  · simp at hd
  · split at hd
    · simp at hd
    · cases hn : next_image rnd fuel
          { s with last_key_right := some now, lock_until := some (now + 300) } with
      | none =>
        rw [hn] at hd
        simp at hd
      | some s2 =>
        rw [hn] at hd
        simp only [Option.some.injEq, Prod.mk.injEq] at hd
        rw [← hd.2]
        exact next_image_lock _ _ _ _ hn

/-- C1: the claimed invariant — at most one pending auto-advance callback at
any instant, every rescheduling advance cancelling the pending handle first —
fails on the code: `next_image` (lines 726-728) reschedules without
cancelling, so invoking it by button or key while a tick is already pending
yields a reachable event-loop state with two live pending callbacks.  Here:
start auto-advance (one tick pending), then press Next. -/
theorem C1_duplicate_pending_ticks :
    ((next_image (fun _ => 0) 1 (toggle_auto_advance (initState [0, 1]))).getD
        (initState [0, 1])).live_timers.length = 2 ∧
    Reachable [0, 1]
      ((next_image (fun _ => 0) 1 (toggle_auto_advance (initState [0, 1]))).getD
        (initState [0, 1])) := by
  constructor
  · rfl
  · exact Relation.ReflTransGen.tail
      (Relation.ReflTransGen.single (Step.toggleAuto _))
      (Step.next (fun _ => 0) 1 _ _ rfl)

/-- C2: in sequential mode, from index `i < N` (catalog size `N ≥ 2`), the
`m`-th `next_image` call shows index `(i + m) mod N`, and after exactly `N`
calls the index is `i` again. -/
theorem C2_sequential_cycle (rnd : ℕ → ℕ) (fuel : ℕ) (s : State) (N i : ℕ)
    (hN : 2 ≤ N) (hf : s.image_files.length = N) (hm : s.is_random_mode = false)
    (hi : s.current_index = i) (hiN : i < N) :
    (∀ m : ℕ, (iterNext rnd fuel m s).map State.current_index =
      some ((i + m) % N)) ∧
    (iterNext rnd fuel N s).map State.current_index = some i := by
  have h0 : s.image_files ≠ [] := by
    intro he
    rw [he] at hf
    simp at hf
    omega
  have key : ∀ m : ℕ,
      (iterNext rnd fuel m s).map State.current_index = some ((i + m) % N) := by
    intro m
    obtain ⟨s', hiter, hcur, _, _⟩ :=
      iterNext_seq rnd fuel m s h0 hm (by rw [hf, hi]; exact hiN)
    rw [hiter, Option.map_some', hcur, hf, hi]
  refine ⟨key, ?_⟩
  rw [key N, Nat.add_mod_right, Nat.mod_eq_of_lt hiN]

theorem C2_sequential_cycle_witness :
    (iterNext (fun _ => 0) 1 2 (initState [5, 9])).map State.current_index =
      some 0 :=
  (C2_sequential_cycle (fun _ => 0) 1 (initState [5, 9]) 2 0 (by omega) rfl rfl rfl
    (by omega)).2

/-- C3: in random mode with `N ≥ 2`, a successful `next_image` never leaves
the current index unchanged — the fresh-draw path rejects draws equal to the
current index, and the redo path replays a history neighbour, which the
adjacent-distinct invariant makes different. -/
theorem C3_random_no_immediate_repeat (f : List ℕ) (rnd : ℕ → ℕ) (fuel : ℕ)
    (s s' : State) (hr : Reachable f s) (hm : s.is_random_mode = true)
    (hN : 1 < s.image_files.length)
    (h : next_image rnd fuel s = some s') : s'.current_index ≠ s.current_index := by
  obtain ⟨hlen, hsort, hchain, hrand⟩ := reachable_navInv f s hr
  obtain ⟨hp0, hplen, hpidx⟩ := hrand hm
  rcases next_image_cases rnd fuel s s' h with
    ⟨h0, rfl⟩ | ⟨h0, h1, h2, rfl⟩ | ⟨h0, h1, h2, v, k', hd, rfl⟩ | ⟨h0, h1, rfl⟩
  · rw [h0] at hN
    simp at hN
  · -- redo path
    simp only [finish_next_current]
    show s.random_sequence.getD (s.random_sequence_position + 1).toNat 0 ≠
      s.current_index
    intro he
    rw [← hpidx] at he
    have hpn : (s.random_sequence_position + 1).toNat =
        s.random_sequence_position.toNat + 1 := by omega
    rw [hpn] at he
    exact chain'_ne_getD _ (hchain hN) s.random_sequence_position.toNat
      (by omega) he.symm
  · -- fresh-draw path
    push_neg at h2
    have hptail : s.random_sequence_position.toNat = s.random_sequence.length - 1 := by
      have := h2 hp0
      omega
    have hne : s.random_sequence ≠ [] := by
      intro he
      rw [he] at hplen
      simp at hplen
    have hta : tail_append s = s :=
      tail_append_eq_self s (hist_last_eq s hplen hpidx hptail) hne
    rw [hta] at hd ⊢
    simp only [finish_next_current]
    show v ≠ s.current_index
    exact draw_new_index_spec rnd s.current_index s.image_files.length fuel
      s.rand_k v k' hd hN
  · rw [h1] at hm
    exact Bool.noConfusion hm

theorem C3_witness :
    ((next_image (fun _ => 1) 2 (toggle_random_mode (initState [0, 1]))).getD
        (toggle_random_mode (initState [0, 1]))).current_index ≠
      (toggle_random_mode (initState [0, 1])).current_index :=
  C3_random_no_immediate_repeat [0, 1] (fun _ => 1) 2
    (toggle_random_mode (initState [0, 1])) _
    (Relation.ReflTransGen.single (Step.toggleRandom _)) rfl (by decide) rfl

/-- C4: the history never exceeds 15 entries in any reachable state, and the
trimming operation used on every append keeps a suffix (the most recent
entries), dropping the oldest first. -/
theorem C4_history_bounded (f : List ℕ) (s : State) (hr : Reachable f s) :
    s.random_sequence.length ≤ 15 ∧ ∀ l : List ℕ, (trim15 l).IsSuffix l :=
  ⟨(reachable_navInv f s hr).1, fun l => trim15_suffix l⟩

theorem C4_history_bounded_witness :
    (initState ([] : List ℕ)).random_sequence.length ≤ 15 ∧
      (trim15 [0, 1, 2]).IsSuffix [0, 1, 2] := by
  have h := C4_history_bounded [] (initState []) Relation.ReflTransGen.refl
  exact ⟨h.1, h.2 [0, 1, 2]⟩

/-- Round-trip core: in random mode with a positive position whose entry is
the current index and whose predecessor is `c0`, going back yields `c0`, and
a following `next_image` (with any random source) replays the entry at the
old position without consuming the random stream. -/
theorem roundtrip_core (rnd2 rnd3 : ℕ → ℕ) (fuel3 : ℕ) (s1 : State) (c0 : ℕ)
    (h0 : s1.image_files ≠ []) (h1 : s1.is_random_mode = true)
    (hp1 : 1 ≤ s1.random_sequence_position)
    (hplen : s1.random_sequence_position.toNat < s1.random_sequence.length)
    (hpidx : s1.random_sequence.getD s1.random_sequence_position.toNat 0 =
      s1.current_index)
    (hprev : s1.random_sequence.getD (s1.random_sequence_position - 1).toNat 0 = c0) :
    (previous_image rnd2 s1).current_index = c0 ∧
    (next_image rnd3 fuel3 (previous_image rnd2 s1)).map State.current_index =
      some s1.current_index ∧
    (next_image rnd3 fuel3 (previous_image rnd2 s1)).map State.rand_k =
      some (previous_image rnd2 s1).rand_k := by
  have hlen1 : 1 < s1.random_sequence.length := by omega
  have hback := previous_image_back rnd2 s1 h0 h1 (by omega) hplen hpidx hlen1
    (by omega)
  rw [hback]
  set s2 := display_image
    { s1 with random_sequence_position := s1.random_sequence_position - 1,
              current_index :=
                s1.random_sequence.getD (s1.random_sequence_position - 1).toNat 0 }
    (s1.image_files.getD
      (s1.random_sequence.getD (s1.random_sequence_position - 1).toNat 0) 0)
    with hs2
  have hf2 : s2.image_files = s1.image_files := by simp [hs2]
  have hm2 : s2.is_random_mode = true := by simp [hs2, h1]
  have hp2 : s2.random_sequence_position = s1.random_sequence_position - 1 := by
    simp [hs2]
  have hseq2 : s2.random_sequence = s1.random_sequence := by simp [hs2]
  have hc2 : s2.current_index =
      s1.random_sequence.getD (s1.random_sequence_position - 1).toNat 0 := by
    simp [hs2]
  have hred := next_image_redo rnd3 fuel3 s2 (by rw [hf2]; exact h0) hm2
    (by rw [hp2]; omega) (by rw [hp2, hseq2]; omega)
  refine ⟨by rw [hc2, hprev], ?_, ?_⟩
  · rw [hred, Option.map_some']
    simp only [finish_next_current]
    show some (s2.random_sequence.getD (s2.random_sequence_position + 1).toNat 0) =
      some s1.current_index
    rw [hseq2, hp2]
    have harith : s1.random_sequence_position - 1 + 1 = s1.random_sequence_position := by
      omega
    rw [harith, hpidx]
  · rw [hred, Option.map_some']
    simp only [finish_next_k]

/-- C5: in random mode (`N ≥ 2`), `next_image` then `previous_image` returns
the current index to its prior value, and a following `next_image` replays
the same drawn index from the history without consuming the random stream
(any random source, any fuel: the redo path takes no draw). -/
theorem C5_random_roundtrip (f : List ℕ) (rnd rnd2 rnd3 : ℕ → ℕ)
    (fuel fuel3 : ℕ) (s s1 : State)
    (hr : Reachable f s) (hm : s.is_random_mode = true)
    (hN : 1 < s.image_files.length)
    (h : next_image rnd fuel s = some s1) :
    (previous_image rnd2 s1).current_index = s.current_index ∧
    (next_image rnd3 fuel3 (previous_image rnd2 s1)).map State.current_index =
      some s1.current_index ∧
    (next_image rnd3 fuel3 (previous_image rnd2 s1)).map State.rand_k =
      some (previous_image rnd2 s1).rand_k := by
  obtain ⟨hlen, hsort, hchain, hrand⟩ := reachable_navInv f s hr
  obtain ⟨hp0, hplen, hpidx⟩ := hrand hm
  rcases next_image_cases rnd fuel s s1 h with
    ⟨h0, rfl⟩ | ⟨h0, h1, h2, rfl⟩ | ⟨h0, h1, h2, v, k', hd, rfl⟩ | ⟨h0, h1, rfl⟩
  · rw [h0] at hN
    simp at hN
  · -- redo path
    apply roundtrip_core
    · simpa using h0
    · simpa using h1
    · simp
      omega
    · simp
      omega
    · simp
    · simp only [finish_next_seq, finish_next_pos]
      show s.random_sequence.getD
        ((s.random_sequence_position + 1 - 1)).toNat 0 = s.current_index
      have harith : s.random_sequence_position + 1 - 1 = s.random_sequence_position := by
        omega
      rw [harith, hpidx]
  · -- fresh-draw path
    push_neg at h2
    have hptail : s.random_sequence_position.toNat = s.random_sequence.length - 1 := by
      have := h2 hp0
      omega
    have hne : s.random_sequence ≠ [] := by
      intro he
      rw [he] at hplen
      simp at hplen
    have hnge : 1 ≤ s.random_sequence.length := List.length_pos.mpr hne
    have hta : tail_append s = s :=
      tail_append_eq_self s (hist_last_eq s hplen hpidx hptail) hne
    rw [hta] at hd ⊢
    have hTlen : (trim15 (s.random_sequence ++ [v])).length =
        min (s.random_sequence.length + 1) 15 := by
      rw [trim15_length]
      simp
    have hlastT : (trim15 (s.random_sequence ++ [v])).getD
        ((trim15 (s.random_sequence ++ [v])).length - 1) 0 = v := by
      rw [trim15_getD]
      have hix : (s.random_sequence ++ [v]).length -
          min (s.random_sequence ++ [v]).length 15 +
          ((trim15 (s.random_sequence ++ [v])).length - 1) =
          s.random_sequence.length := by
        simp only [List.length_append, List.length_singleton]
        omega
      rw [hix, getD_concat_self]
    have hprevT : (trim15 (s.random_sequence ++ [v])).getD
        ((trim15 (s.random_sequence ++ [v])).length - 2) 0 = s.current_index := by
      rw [trim15_getD]
      have hix2 : (s.random_sequence ++ [v]).length -
          min (s.random_sequence ++ [v]).length 15 +
          ((trim15 (s.random_sequence ++ [v])).length - 2) =
          s.random_sequence.length - 1 := by
        simp only [List.length_append, List.length_singleton]
        omega
      rw [hix2, getD_append_left _ _ _ (by omega), ← hptail, hpidx]
    apply roundtrip_core
    · simpa using h0
    · simpa using h1
    · simp
      omega
    · simp
      omega
    · simp only [finish_next_seq, finish_next_pos, finish_next_current]
      show (trim15 (s.random_sequence ++ [v])).getD
        (((trim15 (s.random_sequence ++ [v])).length : ℤ) - 1).toNat 0 = v
      have hnt : (((trim15 (s.random_sequence ++ [v])).length : ℤ) - 1).toNat =
          (trim15 (s.random_sequence ++ [v])).length - 1 := by omega
      rw [hnt, hlastT]
    · simp only [finish_next_seq, finish_next_pos]
      show (trim15 (s.random_sequence ++ [v])).getD
        ((((trim15 (s.random_sequence ++ [v])).length : ℤ) - 1) - 1).toNat 0 =
        s.current_index
      have hnt2 : ((((trim15 (s.random_sequence ++ [v])).length : ℤ) - 1) - 1).toNat =
          (trim15 (s.random_sequence ++ [v])).length - 2 := by omega
      rw [hnt2, hprevT]
  · rw [h1] at hm
    exact Bool.noConfusion hm

theorem C5_random_roundtrip_witness :
    (previous_image (fun _ => 0)
        ((next_image (fun _ => 1) 2 (toggle_random_mode (initState [0, 1]))).getD
          (toggle_random_mode (initState [0, 1])))).current_index =
      (toggle_random_mode (initState [0, 1])).current_index ∧
    (next_image (fun _ => 2) 3 (previous_image (fun _ => 0)
        ((next_image (fun _ => 1) 2 (toggle_random_mode (initState [0, 1]))).getD
          (toggle_random_mode (initState [0, 1]))))).map State.current_index =
      some ((next_image (fun _ => 1) 2 (toggle_random_mode (initState [0, 1]))).getD
          (toggle_random_mode (initState [0, 1]))).current_index ∧
    (next_image (fun _ => 2) 3 (previous_image (fun _ => 0)
        ((next_image (fun _ => 1) 2 (toggle_random_mode (initState [0, 1]))).getD
          (toggle_random_mode (initState [0, 1]))))).map State.rand_k =
      some (previous_image (fun _ => 0)
        ((next_image (fun _ => 1) 2 (toggle_random_mode (initState [0, 1]))).getD
          (toggle_random_mode (initState [0, 1])))).rand_k :=
  C5_random_roundtrip [0, 1] (fun _ => 1) (fun _ => 0) (fun _ => 2) 2 3
    (toggle_random_mode (initState [0, 1])) _
    (Relation.ReflTransGen.single (Step.toggleRandom _)) rfl (by decide) rfl

/-- C6: two forward commands less than 300 ms apart: if the first is accepted
(it invokes `next_image`), the second is rejected by the navigation lock and
leaves the state untouched, so exactly one advance occurs. -/
theorem C6_debounce_single_advance (rnd rnd2 : ℕ → ℕ) (fuel fuel2 t0 t1 : ℕ)
    (s s1 : State) (hlt : t1 < t0 + 300)
    (hacc : debounced_next_image rnd fuel t0 s = some (true, s1)) :
    debounced_next_image rnd2 fuel2 t1 s1 = some (false, s1) := by
  have hlock : s1.lock_until = some (t0 + 300) :=
    debounced_next_accepted rnd fuel t0 s s1 hacc
  have hl : navigation_locked s1 t1 = true := by
    unfold navigation_locked
    rw [hlock]
    simpa using hlt
  unfold debounced_next_image
  rw [if_pos hl]

theorem C6_debounce_single_advance_witness :
    debounced_next_image (fun _ => 0) 1 1200
        ((debounced_next_image (fun _ => 0) 1 1000 (initState [3, 4])).getD
          (false, initState [3, 4])).2 =
      some (false,
        ((debounced_next_image (fun _ => 0) 1 1000 (initState [3, 4])).getD
          (false, initState [3, 4])).2) :=
  C6_debounce_single_advance (fun _ => 0) (fun _ => 0) 1 1 1000 1200
    (initState [3, 4]) _ (by omega) rfl

/-- `display_image` is called exactly once by `previous_image` whenever the
catalog is non-empty, with the final current image. -/
theorem previous_image_log (rnd : ℕ → ℕ) (s : State) (h0 : s.image_files ≠ []) :
    (previous_image rnd s).display_log =
      s.display_log ++ [(previous_image rnd s).image_files.getD
        (previous_image rnd s).current_index 0] := by
  unfold previous_image
  rw [if_neg h0]
  split
  · simp
  · simp

/-- C7: `toggle_random_mode` never writes the current index; entering
sequential mode rebuilds the catalog sorted and clears the history with
position -1; since reachable catalogs are already sorted, the catalog — and
hence the image identified by the current index — is unchanged in both
directions. -/
theorem C7_toggle_mode_frame (f : List ℕ) (s : State) (hr : Reachable f s) :
    (toggle_random_mode s).current_index = s.current_index ∧
    (s.is_random_mode = false → (toggle_random_mode s).is_random_mode = true ∧
      (toggle_random_mode s).image_files = s.image_files) ∧
    (s.is_random_mode = true → (toggle_random_mode s).is_random_mode = false ∧
      (toggle_random_mode s).random_sequence = [] ∧
      (toggle_random_mode s).random_sequence_position = -1 ∧
      (toggle_random_mode s).image_files = s.image_files.insertionSort (· ≤ ·) ∧
      (toggle_random_mode s).image_files = s.image_files) ∧
    (toggle_random_mode s).image_files.getD (toggle_random_mode s).current_index 0 =
      s.image_files.getD s.current_index 0 := by
  have hsort := (reachable_navInv f s hr).2.1
  cases hm : s.is_random_mode with
  | false =>
    rw [toggle_random_of_false s hm]
    refine ⟨by simp, fun _ => ⟨by simp, by simp⟩, ?_, by simp⟩
    intro hc
    exact Bool.noConfusion hc
  | true =>
    rw [toggle_random_of_true s hm]
    have hLfiles : (load_images { s with is_random_mode := false }).image_files =
        s.image_files.insertionSort (· ≤ ·) := by
      unfold load_images
      split
      · rfl
      · rename_i hcond
        have hfe : s.image_files = [] := by
          by_contra hne
          exact hcond ⟨hne, rfl⟩
        show s.image_files = s.image_files.insertionSort (· ≤ ·)
        rw [hfe]
        rfl
    have hLcur : (load_images { s with is_random_mode := false }).current_index =
        s.current_index := by
      unfold load_images
      split <;> rfl
    have hLmode : (load_images { s with is_random_mode := false }).is_random_mode =
        false := by
      unfold load_images
      split <;> rfl
    have hfiles2 : (load_images { s with is_random_mode := false }).image_files =
        s.image_files := by
      rw [hLfiles]
      exact hsort.insertionSort_eq
    refine ⟨by simpa using hLcur, ?_,
      fun _ => ⟨by simpa using hLmode, by simp, by simp, by simpa using hLfiles,
        by simpa using hfiles2⟩, ?_⟩
    · intro hc
      exact Bool.noConfusion hc
    · show (load_images { s with is_random_mode := false }).image_files.getD
        (load_images { s with is_random_mode := false }).current_index 0 =
        s.image_files.getD s.current_index 0
      rw [hfiles2, hLcur]

theorem C7_toggle_mode_frame_witness :
    (toggle_random_mode (initState [2, 1])).current_index =
      (initState [2, 1]).current_index ∧
    (toggle_random_mode (initState [2, 1])).image_files.getD
        (toggle_random_mode (initState [2, 1])).current_index 0 =
      (initState [2, 1]).image_files.getD (initState [2, 1]).current_index 0 := by
  have h := C7_toggle_mode_frame [2, 1] (initState [2, 1]) Relation.ReflTransGen.refl
  exact ⟨h.1, h.2.2.2⟩

/-- C8 counterexample: with an empty catalog, `toggle_random_mode` is not a
no-op — it still flips the mode (and reseeds the history), contradicting the
claim that every operation leaves the whole navigation state unchanged. -/
theorem C8_counterexample :
    (toggle_random_mode (initState ([] : List ℕ))).is_random_mode = true ∧
    (initState ([] : List ℕ)).is_random_mode = false ∧
    (toggle_random_mode (initState ([] : List ℕ))).random_sequence = [0] ∧
    (initState ([] : List ℕ)).random_sequence = [] :=
  ⟨rfl, rfl, rfl, rfl⟩

/-- C8 (amended): with an empty catalog, `next_image` and `previous_image`
are exact no-ops and raise no error; `toggle_random_mode` also raises no
error and leaves the current index and the (empty) catalog unchanged, but it
still toggles the mode and rewrites the history. -/
theorem C8_empty_guard (rnd : ℕ → ℕ) (fuel : ℕ) (s : State)
    (h : s.image_files = []) :
    next_image rnd fuel s = some s ∧ previous_image rnd s = s ∧
    (toggle_random_mode s).current_index = s.current_index ∧
    (toggle_random_mode s).image_files = [] := by
  refine ⟨?_, ?_, ?_, ?_⟩
  · unfold next_image
    rw [if_pos h]
  · unfold previous_image
    rw [if_pos h]
  · cases hm : s.is_random_mode with
    | false => rw [toggle_random_of_false s hm]
    | true =>
      rw [toggle_random_of_true s hm]
      show (load_images { s with is_random_mode := false }).current_index =
        s.current_index
      unfold load_images
      split <;> rfl
  · cases hm : s.is_random_mode with
    | false =>
      rw [toggle_random_of_false s hm]
      exact h
    | true =>
      rw [toggle_random_of_true s hm]
      show (load_images { s with is_random_mode := false }).image_files = []
      unfold load_images
      split
      · rename_i hcond
        exact absurd h hcond.1
      · exact h

theorem C8_empty_guard_witness :
    next_image (fun _ => 0) 1 (initState []) = some (initState []) ∧
    previous_image (fun _ => 0) (initState []) = initState [] ∧
    (toggle_random_mode (initState [])).current_index =
      (initState []).current_index ∧
    (toggle_random_mode (initState [])).image_files = [] :=
  C8_empty_guard (fun _ => 0) 1 (initState []) rfl

/-- C9 counterexample: with a single-image catalog, `next_image` leaves the
current index unchanged (a no-op transition) yet still invokes the render
sink `display_image` — the log grows — contradicting "never invoked on a
suppressed or no-op transition". -/
theorem C9_counterexample :
    ((next_image (fun _ => 0) 1 (initState [7])).getD (initState [7])).current_index =
      (initState [7]).current_index ∧
    ((next_image (fun _ => 0) 1 (initState [7])).getD
        (initState [7])).display_log.length =
      (initState [7]).display_log.length + 1 :=
  ⟨rfl, rfl⟩

/-- C9 (amended): `display_image` is invoked exactly once per `next_image` or
`previous_image` call whenever the catalog is non-empty — whether or not the
current index changed — and never when the catalog is empty. -/
theorem C9_render_per_call (rnd : ℕ → ℕ) (fuel : ℕ) (s s' : State) :
    (s.image_files = [] →
      next_image rnd fuel s = some s ∧ previous_image rnd s = s) ∧
    (s.image_files ≠ [] →
      (next_image rnd fuel s = some s' →
        s'.display_log = s.display_log ++
          [s'.image_files.getD s'.current_index 0]) ∧
      (previous_image rnd s).display_log = s.display_log ++
        [(previous_image rnd s).image_files.getD
          (previous_image rnd s).current_index 0]) := by
  constructor
  · intro h
    refine ⟨?_, ?_⟩
    · unfold next_image
      rw [if_pos h]
    · unfold previous_image
      rw [if_pos h]
  · intro h0
    exact ⟨fun hn => next_image_log rnd fuel s s' hn h0, previous_image_log rnd s h0⟩

theorem C9_render_per_call_witness :
    ((next_image (fun _ => 0) 1 (initState [4, 6])).getD
        (initState [4, 6])).display_log =
      (initState [4, 6]).display_log ++
        [((next_image (fun _ => 0) 1 (initState [4, 6])).getD
            (initState [4, 6])).image_files.getD
          ((next_image (fun _ => 0) 1 (initState [4, 6])).getD
            (initState [4, 6])).current_index 0] :=
  ((C9_render_per_call (fun _ => 0) 1 (initState [4, 6])
      ((next_image (fun _ => 0) 1 (initState [4, 6])).getD (initState [4, 6]))).2
    (by decide)).1 rfl

/-- C10: in every reachable state over a catalog with more than one entry, no
two adjacent history entries are equal; consequently a one-step move within
the history — backward from a positive position, or forward strictly before
the tail — always changes the current index. -/
theorem C10_history_adjacent_distinct (f : List ℕ) (rnd : ℕ → ℕ) (fuel : ℕ)
    (s s' : State) (hr : Reachable f s) (hN : 1 < s.image_files.length) :
    s.random_sequence.Chain' (· ≠ ·) ∧
    (s.is_random_mode = true → 0 < s.random_sequence_position →
      (previous_image rnd s).current_index ≠ s.current_index) ∧
    (s.is_random_mode = true → 0 ≤ s.random_sequence_position →
      s.random_sequence_position < (s.random_sequence.length : ℤ) - 1 →
      next_image rnd fuel s = some s' → s'.current_index ≠ s.current_index) := by
  obtain ⟨hlen, hsort, hchain, hrand⟩ := reachable_navInv f s hr
  have h0 : s.image_files ≠ [] := by
    intro he
    rw [he] at hN
    simp at hN
  refine ⟨hchain hN, ?_, ?_⟩
  · intro hm hp
    obtain ⟨hp0, hplen, hpidx⟩ := hrand hm
    have hlen1 : 1 < s.random_sequence.length := by omega
    rw [previous_image_back rnd s h0 hm hp0 hplen hpidx hlen1 hp]
    simp only [display_image_current]
    show s.random_sequence.getD (s.random_sequence_position - 1).toNat 0 ≠
      s.current_index
    rw [← hpidx]
    have hpn : s.random_sequence_position.toNat =
        (s.random_sequence_position - 1).toNat + 1 := by omega
    intro he
    rw [hpn] at he
    exact chain'_ne_getD _ (hchain hN) (s.random_sequence_position - 1).toNat
      (by omega) he
  · intro hm hp0 hptail hn
    obtain ⟨_, hplen, hpidx⟩ := hrand hm
    have hred := next_image_redo rnd fuel s h0 hm hp0 hptail
    have hs' : s' = finish_next
        { s with random_sequence_position := s.random_sequence_position + 1,
                 current_index :=
                   s.random_sequence.getD (s.random_sequence_position + 1).toNat 0 } :=
      Option.some.inj (hn.symm.trans hred)
    rw [hs']
    simp only [finish_next_current]
    show s.random_sequence.getD (s.random_sequence_position + 1).toNat 0 ≠
      s.current_index
    rw [← hpidx]
    have hpn : (s.random_sequence_position + 1).toNat =
        s.random_sequence_position.toNat + 1 := by omega
    intro he
    rw [hpn] at he
    exact chain'_ne_getD _ (hchain hN) s.random_sequence_position.toNat
      (by omega) he.symm

theorem C10_history_adjacent_distinct_witness :
    (initState [0, 1]).random_sequence.Chain' (· ≠ ·) :=
  (C10_history_adjacent_distinct [0, 1] (fun _ => 0) 1 (initState [0, 1])
    (initState [0, 1]) Relation.ReflTransGen.refl (by decide)).1
